import Mathlib

/-!
Verification of the advisor-form repository core: the firm directory lookup
service (FirmService), the advisor form controller (AdvisorForm), and the
submission relay handler.  JavaScript strings are embedded as lists of
characters; JS String.prototype.trim, toLowerCase, startsWith and includes
are modelled by the functions below.
-/

/-- A JavaScript string, embedded as a list of characters. -/
abbrev Str := List Char

/-- Embed a Lean string literal as a Str. -/
def strOf (s : String) : Str := s.data

/-- JS s.toLowerCase() (ASCII letters, as Char.toLower). -/
def toLower (s : Str) : Str := s.map Char.toLower

/-- JS s.trim(): drop leading and trailing whitespace. -/
def trim (s : Str) : Str :=
  ((s.dropWhile Char.isWhitespace).reverse.dropWhile Char.isWhitespace).reverse

/-- JS hay.includes(needle): needle occurs as a contiguous substring of hay. -/
def containsSub (needle : Str) : Str → Bool
  | [] => needle.isEmpty
  | c :: rest => needle.isPrefixOf (c :: rest) || containsSub needle rest

namespace FirmService

/-- FirmService.isValidFirm from src/types (the static firm list is passed
explicitly as the value of the module-level firms field). -/
def isValidFirm (firms : List Str) (firmName : Str) : Bool :=
  if firmName = [] ∨ trim firmName = [] then
    false
  else
    let normalizedInput := toLower (trim firmName)
    firms.any (fun firm => toLower firm = normalizedInput)

/-- FirmService.getFirmSuggestions from src/types. -/
def getFirmSuggestions (firms : List Str) (input : Str) (maxSuggestions : Nat) : List Str :=
  if input = [] ∨ trim input = [] then
    []
  else
    let normalizedInput := toLower (trim input)
    let startsWithMatches := firms.filter (fun firm =>
      normalizedInput.isPrefixOf (toLower firm))
    let containsMatches := firms.filter (fun firm =>
      let firmLower := toLower firm
      containsSub normalizedInput firmLower && !(normalizedInput.isPrefixOf firmLower))
    let allMatches := startsWithMatches ++ containsMatches
    allMatches.take maxSuggestions

/-- FirmService.getExactFirmName from src/types.  The final JS expression
is found-or-null, so a (never occurring) empty-string find result would
also come back as null. -/
def getExactFirmName (firms : List Str) (firmName : Str) : Option Str :=
  if firmName = [] ∨ trim firmName = [] then
    none
  else
    let normalizedInput := toLower (trim firmName)
    match firms.find? (fun firm => toLower firm = normalizedInput) with
    | none => none
    | some found => if found = [] then none else some found

end FirmService

/-- The step field of AdvisorFormState (string union in src/types). -/
inductive FormStep
  | firmInput
  | contactDetails
  | thankYou
deriving DecidableEq

/-- FirmEntry from src/types: one accumulated record of the user's
submission.  The opaque unique id (crypto.randomUUID in the source) is
determinized as a Nat drawn from the controller's fresh-id supply, and
the Date timestamp as a Nat clock value. -/
structure FirmEntry where
  id : Nat
  firmName : Str
  isMatched : Bool
  contactName : Option Str := none
  contactDesignation : Option Str := none
  relationshipStrength : Option Str := none
  contactFrequency : Option Str := none
  timestamp : Nat
deriving DecidableEq

/-- ContactFormData collected by the contact sub-form. -/
structure ContactFormData where
  name : Str
  designation : Str
  relationshipStrength : Str
  contactFrequency : Str
deriving DecidableEq

/-- AdvisorFormState from src/types (the formState useState value). -/
structure AdvisorFormState where
  currentStep : FormStep
  currentFirmName : Str
  currentFirmMatched : Bool
  enteredFirms : List FirmEntry
  isFormComplete : Bool
  maxFirms : Nat
  userEmail : Str
deriving DecidableEq

/-- initialFormState from the AdvisorForm component. -/
def initialFormState : AdvisorFormState where
  currentStep := .firmInput
  currentFirmName := []
  currentFirmMatched := false
  enteredFirms := []
  isFormComplete := false
  maxFirms := 5
  userEmail := []

/-- The full state owned by the AdvisorForm component: formState plus the
other useState hooks, together with the determinized id supply and clock. -/
structure Controller where
  formState : AdvisorFormState
  loading : Bool
  firmInputError : Str
  currentFirmInput : Str
  emailError : Str
  toastMessage : Str
  showToast : Bool
  nextId : Nat
  now : Nat
deriving DecidableEq

/-- The component's initial state (all hooks at their initial values). -/
def initController : Controller where
  formState := initialFormState
  loading := false
  firmInputError := []
  currentFirmInput := []
  emailError := []
  toastMessage := []
  showToast := false
  nextId := 0
  now := 0

/-- Observable side effects the controller emits to its collaborators:
the toast sink, the POST to the submit-form relay, and the onComplete
callback. -/
inductive Effect
  | toast (msg : Str)
  | relayPost (firms : List FirmEntry) (userEmail : Str)
  | onComplete (firms : List FirmEntry) (userEmail : Str)
deriving DecidableEq

def emailRequiredAddMsg : Str := strOf "Please enter your email address before adding a firm"

def emailInvalidAddMsg : Str := strOf "Please enter a valid email address before adding a firm"

def duplicateFirmMsg : Str := strOf "This firm has already been entered"

def emailRequiredFinishMsg : Str := strOf "Please enter your email address"

def emailInvalidFinishMsg : Str := strOf "Please enter a valid email address"

/-- The toast message template of the AdvisorForm component. -/
def toastMsgFor (firmName : Str) : Str :=
  strOf "Thank you! We\x27ll be in touch with you about " ++ firmName ++ strOf "."

/-- A character admitted by the bracket class of the email regex:
anything but whitespace and the at sign. -/
def emailChar (c : Char) : Bool := !(c.isWhitespace || c = '@')

/-- validateEmail from the AdvisorForm component, testing the regex
caret [^\s@]+ at [^\s@]+ dot [^\s@]+ dollar: the string decomposes as a
nonempty run of emailChar, a literal at sign at position i, a nonempty
run of emailChar, a literal dot at position j, and a nonempty run of
emailChar to the end (the runs around the dot may themselves hold dots,
which emailChar admits). -/
def validateEmail (email : Str) : Bool :=
  (List.range email.length).any (fun i =>
    email.get? i = some '@' && decide (0 < i) && (email.take i).all emailChar &&
      (List.range email.length).any (fun j =>
        email.get? j = some '.' && decide (i + 1 < j) && decide (j + 1 < email.length) &&
          ((email.drop (i + 1)).take (j - i - 1)).all emailChar &&
          (email.drop (j + 1)).all emailChar))

/-- handleFirmSubmit from the AdvisorForm component.  The static firm
directory consulted through FirmService is passed explicitly; the result
pairs the successor state with the emitted effects. -/
def handleFirmSubmit (firms : List Str) (c : Controller) (firmName : Str) :
    Controller × List Effect :=
  let c0 := { c with firmInputError := [] }
  if c0.formState.userEmail = [] then
    ({ c0 with emailError := emailRequiredAddMsg }, [])
  else if !(validateEmail c0.formState.userEmail) then
    ({ c0 with emailError := emailInvalidAddMsg }, [])
  else
    let isAlreadyEntered := c0.formState.enteredFirms.any (fun entry =>
      toLower entry.firmName = toLower firmName)
    if isAlreadyEntered then
      ({ c0 with firmInputError := duplicateFirmMsg }, [])
    else
      let isMatched := FirmService.isValidFirm firms firmName
      let exactFirmName := (FirmService.getExactFirmName firms firmName).getD firmName
      let c1 := { c0 with currentFirmInput := [] }
      if isMatched then
        ({ c1 with formState := { c1.formState with
            currentFirmName := exactFirmName
            currentFirmMatched := isMatched
            currentStep := .contactDetails } }, [])
      else
        let newFirmEntry : FirmEntry :=
          { id := c1.nextId, firmName := exactFirmName, isMatched := false, timestamp := c1.now }
        ({ c1 with
            formState := { c1.formState with
              enteredFirms := c1.formState.enteredFirms ++ [newFirmEntry]
              currentFirmName := []
              currentFirmMatched := false
              currentStep := .firmInput }
            nextId := c1.nextId + 1
            toastMessage := toastMsgFor exactFirmName
            showToast := true }, [Effect.toast (toastMsgFor exactFirmName)])

/-- handleContactSubmit from the AdvisorForm component (the body of the
setTimeout callback run to completion; loading toggles true then false). -/
def handleContactSubmit (c : Controller) (contactData : ContactFormData) :
    Controller × List Effect :=
  let newFirmEntry : FirmEntry :=
    { id := c.nextId
      firmName := c.formState.currentFirmName
      isMatched := true
      contactName := some contactData.name
      contactDesignation := some contactData.designation
      relationshipStrength := some contactData.relationshipStrength
      contactFrequency := some contactData.contactFrequency
      timestamp := c.now }
  ({ c with
      formState := { c.formState with
        enteredFirms := c.formState.enteredFirms ++ [newFirmEntry]
        currentStep := .firmInput
        currentFirmName := []
        currentFirmMatched := false }
      toastMessage := toastMsgFor c.formState.currentFirmName
      showToast := true
      nextId := c.nextId + 1
      loading := false }, [Effect.toast (toastMsgFor c.formState.currentFirmName)])

/-- handleContactCancel from the AdvisorForm component. -/
def handleContactCancel (c : Controller) : Controller :=
  { c with formState := { c.formState with
      currentStep := .firmInput
      currentFirmName := []
      currentFirmMatched := false } }

/-- handleFinish from the AdvisorForm component.  relayOk determinizes
whether the fetch to the submit-form relay succeeds (response.ok) or
fails or throws (caught by the surrounding try). -/
def handleFinish (c : Controller) (relayOk : Bool) : Controller × List Effect :=
  if c.formState.userEmail = [] then
    ({ c with emailError := emailRequiredFinishMsg }, [])
  else if !(validateEmail c.formState.userEmail) then
    ({ c with emailError := emailInvalidFinishMsg }, [])
  else
    let finalFirms := c.formState.enteredFirms
    if relayOk then
      ({ c with formState := { c.formState with
           isFormComplete := true
           enteredFirms := finalFirms } },
        [Effect.relayPost finalFirms c.formState.userEmail,
         Effect.onComplete finalFirms c.formState.userEmail])
    else
      ({ c with formState := { c.formState with
           isFormComplete := true
           enteredFirms := finalFirms } },
        [Effect.relayPost finalFirms c.formState.userEmail,
         Effect.onComplete finalFirms c.formState.userEmail])

/-- handleRemoveFirm from the AdvisorForm component. -/
def handleRemoveFirm (c : Controller) (firmId : Nat) : Controller :=
  { c with formState := { c.formState with
      enteredFirms := c.formState.enteredFirms.filter (fun firm => firm.id ≠ firmId) } }

/-- handleNewSubmission from the AdvisorForm component. -/
def handleNewSubmission (c : Controller) : Controller :=
  { c with
      formState := initialFormState
      currentFirmInput := []
      firmInputError := []
      emailError := [] }

/-- handleEmailChange from the AdvisorForm component. -/
def handleEmailChange (c : Controller) (email : Str) : Controller :=
  let c1 := { c with formState := { c.formState with userEmail := email } }
  if c1.emailError ≠ [] then { c1 with emailError := [] } else c1

/-- handleFirmInputChange from the AdvisorForm component. -/
def handleFirmInputChange (c : Controller) (value : Str) : Controller :=
  let c1 := { c with currentFirmInput := value }
  if c1.firmInputError ≠ [] then { c1 with firmInputError := [] } else c1

/-- handleEmailBlur from the AdvisorForm component. -/
def handleEmailBlur (c : Controller) : Controller :=
  if c.formState.userEmail ≠ [] ∧ validateEmail c.formState.userEmail = false then
    { c with emailError := emailInvalidFinishMsg }
  else c

/-- validateForm from ContactForm.tsx: true iff no field error is
recorded, i.e. both selects are non-empty and both text inputs are
non-empty and not whitespace-only. -/
def validateForm (d : ContactFormData) : Bool :=
  !(d.relationshipStrength = []) && !(d.contactFrequency = []) &&
    !(d.name = [] ∨ trim d.name = []) && !(d.designation = [] ∨ trim d.designation = [])

/-- The states the AdvisorForm component can reach from its initial
state through its handlers.  Each rule carries the render guard under
which the UI exposes the corresponding handler: FirmInputStep (and with
it firm submission, the email inputs, finish and remove) renders only in
the firm-input step of an incomplete form, ContactDetailsStep (contact
submission and cancel) only in the contact-details step of an incomplete
form, and FormCompleteStep (new submission) only once the form is
complete; contact submission additionally passes ContactForm.validateForm. -/
inductive Reachable (firms : List Str) : Controller → Prop
  | init : Reachable firms initController
  | firmSubmit {c name} : Reachable firms c →
      c.formState.isFormComplete = false → c.formState.currentStep = .firmInput →
      Reachable firms (handleFirmSubmit firms c name).1
  | contactSubmit {c d} : Reachable firms c →
      c.formState.isFormComplete = false → c.formState.currentStep = .contactDetails →
      validateForm d = true →
      Reachable firms (handleContactSubmit c d).1
  | contactCancel {c} : Reachable firms c →
      c.formState.isFormComplete = false → c.formState.currentStep = .contactDetails →
      Reachable firms (handleContactCancel c)
  | finish {c relayOk} : Reachable firms c →
      c.formState.isFormComplete = false → c.formState.currentStep = .firmInput →
      Reachable firms (handleFinish c relayOk).1
  | removeFirm {c firmId} : Reachable firms c →
      c.formState.isFormComplete = false → c.formState.currentStep = .firmInput →
      Reachable firms (handleRemoveFirm c firmId)
  | newSubmission {c} : Reachable firms c →
      c.formState.isFormComplete = true →
      Reachable firms (handleNewSubmission c)
  | emailChange {c email} : Reachable firms c →
      c.formState.isFormComplete = false → c.formState.currentStep = .firmInput →
      Reachable firms (handleEmailChange c email)
  | firmInputChange {c value} : Reachable firms c →
      c.formState.isFormComplete = false → c.formState.currentStep = .firmInput →
      Reachable firms (handleFirmInputChange c value)
  | emailBlur {c} : Reachable firms c →
      c.formState.isFormComplete = false → c.formState.currentStep = .firmInput →
      Reachable firms (handleEmailBlur c)

/-- The contact-field shape invariant claimed of every accumulated
entry: an unmatched entry carries no contact fields, a matched entry
carries all four, each non-empty. -/
def entryContactsOk (e : FirmEntry) : Prop :=
  (e.isMatched = false →
    e.contactName = none ∧ e.contactDesignation = none ∧
      e.relationshipStrength = none ∧ e.contactFrequency = none) ∧
  (e.isMatched = true →
    (∃ s, e.contactName = some s ∧ s ≠ []) ∧
    (∃ s, e.contactDesignation = some s ∧ s ≠ []) ∧
    (∃ s, e.relationshipStrength = some s ∧ s ≠ []) ∧
    (∃ s, e.contactFrequency = some s ∧ s ≠ []))

/-- The body of a relay response, abstracting the JSON strings the
handler serializes. -/
inductive RelayBody
  | empty
  | errorMethodNotAllowed
  | errorMissingFields
  | errorServerConfig
  | errorInternal
  | successMsg
deriving DecidableEq

/-- An HTTP response of the relay handler. -/
structure RelayResponse where
  statusCode : Nat
  headers : List (String × String)
  body : RelayBody
deriving DecidableEq

/-- The parsed JSON body of a relay request: firms is none when the
field is absent or not an array. -/
structure RelayRequestBody where
  firms : Option (List FirmEntry)
  userEmail : Option Str
deriving DecidableEq

/-- An incoming request to the relay handler; body is none when
JSON.parse of the raw body throws. -/
structure RelayEvent where
  httpMethod : String
  body : Option RelayRequestBody
deriving DecidableEq

/-- The serverless relay handler (netlify function).  webhookUrl is the
WEBHOOK_URL environment variable; relayOk determinizes whether the
downstream webhook POST reports ok.  Method dispatch follows the source
order: the not-POST check comes first, so the OPTIONS branch below it is
unreachable. -/
def handler (webhookUrl : Option String) (relayOk : Bool) (event : RelayEvent) :
    RelayResponse :=
  if event.httpMethod ≠ "POST" then
    { statusCode := 405
      headers := [("Content-Type", "application/json"),
        ("Access-Control-Allow-Origin", "*"),
        ("Access-Control-Allow-Headers", "Content-Type"),
        ("Access-Control-Allow-Methods", "POST, OPTIONS")]
      body := .errorMethodNotAllowed }
  else if event.httpMethod = "OPTIONS" then
    { statusCode := 200
      headers := [("Access-Control-Allow-Origin", "*"),
        ("Access-Control-Allow-Headers", "Content-Type"),
        ("Access-Control-Allow-Methods", "POST, OPTIONS")]
      body := .empty }
  else
    match event.body with
    | none =>
      { statusCode := 500
        headers := [("Content-Type", "application/json"),
          ("Access-Control-Allow-Origin", "*")]
        body := .errorInternal }
    | some formData =>
      match formData.firms with
      | none =>
        { statusCode := 400
          headers := [("Content-Type", "application/json"),
            ("Access-Control-Allow-Origin", "*")]
          body := .errorMissingFields }
      | some firms =>
        if firms.length = 0 then
          { statusCode := 400
            headers := [("Content-Type", "application/json"),
              ("Access-Control-Allow-Origin", "*")]
            body := .errorMissingFields }
        else
          match webhookUrl with
          | none =>
            { statusCode := 500
              headers := [("Content-Type", "application/json"),
                ("Access-Control-Allow-Origin", "*")]
              body := .errorServerConfig }
          | some _ =>
            if relayOk then
              { statusCode := 200
                headers := [("Content-Type", "application/json"),
                  ("Access-Control-Allow-Origin", "*")]
                body := .successMsg }
            else
              { statusCode := 500
                headers := [("Content-Type", "application/json"),
                  ("Access-Control-Allow-Origin", "*")]
                body := .errorInternal }

/-- A sample unmatched directory entry used by concrete instantiations. -/
def aoEntry : FirmEntry :=
  { id := 0, firmName := strOf "Allen & Overy", isMatched := false, timestamp := 0 }

/-- A sample controller state with a valid email and one accumulated entry. -/
def dupController : Controller :=
  { initController with
      formState := { initialFormState with
        userEmail := strOf "a@b.com", enteredFirms := [aoEntry] } }

/-- A sample controller state with a valid email and no entries. -/
def emailController : Controller :=
  { initController with
      formState := { initialFormState with userEmail := strOf "a@b.com" } }

/-- A second sample entry, with a distinct id. -/
def fooEntry : FirmEntry :=
  { id := 1, firmName := strOf "Foo Llp", isMatched := false, timestamp := 0 }

/-- A sample controller state with a valid email and two accumulated entries. -/
def twoFirmsController : Controller :=
  { initController with
      formState := { initialFormState with
        userEmail := strOf "a@b.com", enteredFirms := [aoEntry, fooEntry] } }

/-! Character-level facts about Char.toLower used by the matching proofs. -/

lemma char_toNat_ofNat (n : Nat) (h : n < 55296) : (Char.ofNat n).toNat = n := by
  have hv : n.isValidChar := Or.inl h
  rw [Char.ofNat, dif_pos hv]
  rfl

lemma toLower_idem_char (c : Char) : c.toLower.toLower = c.toLower := by
  unfold Char.toLower
  by_cases h : c.toNat ≥ 65 ∧ c.toNat ≤ 90
  · rw [if_pos h]
    have h2 : (Char.ofNat (c.toNat + 32)).toNat = c.toNat + 32 := char_toNat_ofNat _ (by omega)
    rw [h2, if_neg (by omega)]
  · rw [if_neg h, if_neg h]

lemma isWhitespace_toNat {c : Char} (h : c.isWhitespace = true) :
    c.toNat = 32 ∨ c.toNat = 9 ∨ c.toNat = 13 ∨ c.toNat = 10 := by
  simp [Char.isWhitespace] at h
  obtain ((h | h) | h) | h := h <;> subst h <;> decide

lemma toLower_isWhitespace (c : Char) : c.toLower.isWhitespace = c.isWhitespace := by
  unfold Char.toLower
  by_cases h : c.toNat ≥ 65 ∧ c.toNat ≤ 90
  · rw [if_pos h]
    have h2 : (Char.ofNat (c.toNat + 32)).toNat = c.toNat + 32 := char_toNat_ofNat _ (by omega)
    have hws : c.isWhitespace = false := by
      cases hc : c.isWhitespace
      · rfl
      · have := isWhitespace_toNat hc
        omega
    have hws2 : (Char.ofNat (c.toNat + 32)).isWhitespace = false := by
      cases hc : (Char.ofNat (c.toNat + 32)).isWhitespace
      · rfl
      · have := isWhitespace_toNat hc
        omega
    rw [hws, hws2]
  · rw [if_neg h]

/-! String-level facts about toLower and trim. -/

lemma toLower_toLower (s : Str) : toLower (toLower s) = toLower s := by
  induction s with
  | nil => rfl
  | cons c cs ih =>
    simp only [toLower, List.map_cons, List.map_map] at ih ⊢
    simp [toLower_idem_char, ih]

lemma dropWhile_ws_toLower (s : Str) :
    (s.map Char.toLower).dropWhile Char.isWhitespace
      = (s.dropWhile Char.isWhitespace).map Char.toLower := by
  induction s with
  | nil => rfl
  | cons c cs ih =>
    simp only [List.map_cons, List.dropWhile_cons, toLower_isWhitespace]
    cases h : c.isWhitespace <;> simp [h, ih]

lemma trim_toLower (s : Str) : trim (toLower s) = toLower (trim s) := by
  simp only [trim, toLower]
  rw [dropWhile_ws_toLower, ← List.map_reverse, dropWhile_ws_toLower, List.map_reverse]

lemma toLower_eq_nil (s : Str) : toLower s = [] ↔ s = [] := by
  simp [toLower]

/-! Facts about the directory lookup operations. -/

lemma isValidFirm_def (firms : List Str) (s : Str) :
    FirmService.isValidFirm firms s =
      if s = [] ∨ trim s = [] then false
      else firms.any (fun firm => toLower firm = toLower (trim s)) := rfl

lemma getExactFirmName_def (firms : List Str) (s : Str) :
    FirmService.getExactFirmName firms s =
      if s = [] ∨ trim s = [] then none
      else
        match firms.find? (fun firm => toLower firm = toLower (trim s)) with
        | none => none
        | some found => if found = [] then none else some found := rfl

lemma getFirmSuggestions_def (firms : List Str) (input : Str) (maxSuggestions : Nat) :
    FirmService.getFirmSuggestions firms input maxSuggestions =
      if input = [] ∨ trim input = [] then []
      else
        (firms.filter (fun firm => (toLower (trim input)).isPrefixOf (toLower firm))
          ++ firms.filter (fun firm =>
                containsSub (toLower (trim input)) (toLower firm)
                  && !((toLower (trim input)).isPrefixOf (toLower firm)))).take
          maxSuggestions := rfl

lemma isValidFirm_iff_exists (firms : List Str) (s : Str) :
    FirmService.isValidFirm firms s = true ↔
      ¬(s = [] ∨ trim s = []) ∧ ∃ f ∈ firms, toLower f = toLower (trim s) := by
  rw [isValidFirm_def]
  split
  · simp [*]
  · simp [List.any_eq_true, *]

lemma getExactFirmName_mem {firms : List Str} {s t : Str}
    (h : FirmService.getExactFirmName firms s = some t) :
    t ∈ firms ∧ toLower t = toLower (trim s) := by
  rw [getExactFirmName_def] at h
  split at h
  · exact absurd h (by simp)
  · revert h
    cases hfind : firms.find? (fun firm => toLower firm = toLower (trim s)) with
    | none => intro h; exact absurd h (by simp)
    | some found =>
      have hmem := List.mem_of_find?_eq_some hfind
      have hpred := List.find?_some hfind
      simp only [decide_eq_true_eq] at hpred
      dsimp only
      by_cases hnil : found = []
      · rw [if_pos hnil]
        intro h
        exact absurd h (by simp)
      · rw [if_neg hnil]
        intro h
        cases h
        exact ⟨hmem, hpred⟩

lemma getExactFirmName_isSome_iff (firms : List Str) (s : Str) :
    (FirmService.getExactFirmName firms s).isSome = true ↔
      FirmService.isValidFirm firms s = true := by
  rw [isValidFirm_iff_exists, getExactFirmName_def]
  split
  · simp [*]
  · rename_i hguard
    cases hfind : firms.find? (fun firm => toLower firm = toLower (trim s)) with
    | none =>
      dsimp only
      simp only [Option.isSome_none, Bool.false_eq_true, false_iff]
      rintro ⟨-, f, hf, hlow⟩
      have := List.find?_eq_none.mp hfind f hf
      simp [hlow] at this
    | some found =>
      have hmem := List.mem_of_find?_eq_some hfind
      have hpred := List.find?_some hfind
      simp only [decide_eq_true_eq] at hpred
      have hne : found ≠ [] := by
        intro hnil
        rw [hnil] at hpred
        simp only [toLower, List.map_nil] at hpred
        exact hguard (Or.inr ((toLower_eq_nil (trim s)).mp hpred.symm))
      dsimp only
      rw [if_neg hne]
      simp only [Option.isSome_some, true_iff]
      exact ⟨hguard, found, hmem, hpred⟩

/-- C2: getFirmSuggestions returns the empty sequence on empty or
whitespace-only input; otherwise it returns the directory entries whose
lowercased form starts with the trimmed lowercased input (in directory
order), followed by the entries that contain it as a substring but do
not start with it (in directory order), truncated to maxSuggestions; in
particular the result never exceeds maxSuggestions entries. -/
theorem getFirmSuggestions_ranking (firms : List Str) (input : Str) (maxSuggestions : Nat) :
    FirmService.getFirmSuggestions firms input maxSuggestions =
      (if trim input = [] then []
       else
        (firms.filter (fun firm => (toLower (trim input)).isPrefixOf (toLower firm))
          ++ firms.filter (fun firm =>
                containsSub (toLower (trim input)) (toLower firm)
                  && !((toLower (trim input)).isPrefixOf (toLower firm)))).take
          maxSuggestions)
    ∧ (FirmService.getFirmSuggestions firms input maxSuggestions).length ≤ maxSuggestions := by
  rw [getFirmSuggestions_def]
  constructor
  · by_cases h : input = [] ∨ trim input = []
    · rcases h with h | h
      · subst h
        rw [if_pos (Or.inl rfl)]
        rfl
      · rw [if_pos (Or.inr h), if_pos h]
    · push_neg at h
      rw [if_neg (by push_neg; exact h), if_neg h.2]
  · split
    · simp
    · exact List.length_take_le _ _

/-- C3: for a directory whose entries are trimmed, non-empty and
case-insensitively distinct, getExactFirmName applied to the lowercased
form of any entry returns that entry itself, in its original casing. -/
theorem getExactFirmName_roundTrip (firms : List Str) (e : Str)
    (he : e ∈ firms) (hne : e ≠ [])
    (htrim : ∀ f ∈ firms, trim f = f)
    (hinj : (firms.map toLower).Nodup) :
    FirmService.getExactFirmName firms (toLower e) = some e := by
  have hte : trim e = e := htrim e he
  have h1 : trim (toLower e) = toLower e := by rw [trim_toLower, hte]
  have hnil : toLower e ≠ [] := fun hcontra => hne ((toLower_eq_nil e).mp hcontra)
  have hnorm : toLower (trim (toLower e)) = toLower e := by rw [h1, toLower_toLower]
  rw [getExactFirmName_def,
    if_neg (by push_neg; exact ⟨hnil, by rw [h1]; exact hnil⟩), hnorm]
  cases hfind : firms.find? (fun firm => toLower firm = toLower e) with
  | none =>
    have := List.find?_eq_none.mp hfind e he
    simp at this
  | some f =>
    have hmem := List.mem_of_find?_eq_some hfind
    have hpred := List.find?_some hfind
    simp only [decide_eq_true_eq] at hpred
    have hfe : f = e := List.inj_on_of_nodup_map hinj hmem he hpred
    subst hfe
    dsimp only
    rw [if_neg hne]

/-- Witness for C3 at a concrete two-entry directory. -/
theorem getExactFirmName_roundTrip_witness :
    FirmService.getExactFirmName [strOf "Allen & Overy", strOf "Baker McKenzie"]
        (toLower (strOf "Allen & Overy")) = some (strOf "Allen & Overy") :=
  getExactFirmName_roundTrip _ _ (by decide) (by decide) (by decide) (by decide)

/-- C10: isValidFirm holds exactly when getExactFirmName returns a
result; a returned canonical name is a directory entry agreeing with the
trimmed lowercased input, and on an unmatched name the controller's
canonicalization (getExactFirmName with the submitted name as fallback)
leaves the name unchanged. -/
theorem isValidFirm_getExactFirmName_consistent (firms : List Str) (s : Str) :
    (FirmService.isValidFirm firms s = true ↔
      (FirmService.getExactFirmName firms s).isSome = true)
    ∧ (∀ t, FirmService.getExactFirmName firms s = some t →
        t ∈ firms ∧ toLower t = toLower (trim s))
    ∧ (FirmService.isValidFirm firms s = false →
        (FirmService.getExactFirmName firms s).getD s = s) := by
  refine ⟨(getExactFirmName_isSome_iff firms s).symm,
    fun t ht => getExactFirmName_mem ht, fun hf => ?_⟩
  have hnone : FirmService.getExactFirmName firms s = none := by
    have := getExactFirmName_isSome_iff firms s
    rw [hf] at this
    cases hx : FirmService.getExactFirmName firms s with
    | none => rfl
    | some t =>
      rw [hx] at this
      simp at this
  rw [hnone]
  rfl

/-- Witness for C10: a matched lookup with surrounding whitespace and
mixed case, and an unmatched lookup left unchanged. -/
theorem isValidFirm_getExactFirmName_consistent_witness :
    (FirmService.getExactFirmName [strOf "Allen & Overy"] (strOf " ALLEN & OVERY ")).isSome
        = true
    ∧ (strOf "Allen & Overy" ∈ [strOf "Allen & Overy"]
        ∧ toLower (strOf "Allen & Overy") = toLower (trim (strOf " ALLEN & OVERY ")))
    ∧ (FirmService.getExactFirmName [strOf "Allen & Overy"] (strOf "Zzz Law")).getD
        (strOf "Zzz Law") = strOf "Zzz Law" :=
  ⟨(isValidFirm_getExactFirmName_consistent [strOf "Allen & Overy"]
        (strOf " ALLEN & OVERY ")).1.mp (by decide),
    (isValidFirm_getExactFirmName_consistent [strOf "Allen & Overy"]
        (strOf " ALLEN & OVERY ")).2.1 (strOf "Allen & Overy") (by decide),
    (isValidFirm_getExactFirmName_consistent [strOf "Allen & Overy"]
        (strOf "Zzz Law")).2.2 (by decide)⟩

/-! Facts about the form controller handlers. -/

lemma handleFirmSubmit_def (firms : List Str) (c : Controller) (firmName : Str) :
    handleFirmSubmit firms c firmName =
      if c.formState.userEmail = [] then
        ({ c with firmInputError := [], emailError := emailRequiredAddMsg }, [])
      else if !(validateEmail c.formState.userEmail) then
        ({ c with firmInputError := [], emailError := emailInvalidAddMsg }, [])
      else if c.formState.enteredFirms.any (fun entry =>
          toLower entry.firmName = toLower firmName) then
        ({ c with firmInputError := duplicateFirmMsg }, [])
      else if FirmService.isValidFirm firms firmName then
        ({ c with
            firmInputError := []
            currentFirmInput := []
            formState := { c.formState with
              currentFirmName := (FirmService.getExactFirmName firms firmName).getD firmName
              currentFirmMatched := FirmService.isValidFirm firms firmName
              currentStep := .contactDetails } }, [])
      else
        ({ c with
            firmInputError := []
            currentFirmInput := []
            formState := { c.formState with
              enteredFirms := c.formState.enteredFirms ++
                [{ id := c.nextId
                   firmName := (FirmService.getExactFirmName firms firmName).getD firmName
                   isMatched := false
                   timestamp := c.now }]
              currentFirmName := []
              currentFirmMatched := false
              currentStep := .firmInput }
            nextId := c.nextId + 1
            toastMessage := toastMsgFor ((FirmService.getExactFirmName firms firmName).getD firmName)
            showToast := true },
          [Effect.toast (toastMsgFor ((FirmService.getExactFirmName firms firmName).getD firmName))]) := rfl

/-- C4: with an empty recorded email, submitting any firm name leaves the
whole form state unchanged, surfaces the email-required error, emits no
effect, and performs no directory lookup (the outcome does not depend on
the directory contents). -/
theorem handleFirmSubmit_emailRequired (firms firms2 : List Str) (c : Controller) (name : Str)
    (h : c.formState.userEmail = []) :
    handleFirmSubmit firms c name
        = ({ c with firmInputError := [], emailError := emailRequiredAddMsg }, [])
    ∧ (handleFirmSubmit firms c name).1.formState = c.formState
    ∧ handleFirmSubmit firms c name = handleFirmSubmit firms2 c name := by
  have e1 : handleFirmSubmit firms c name
      = ({ c with firmInputError := [], emailError := emailRequiredAddMsg }, []) := by
    rw [handleFirmSubmit_def, if_pos h]
  have e2 : handleFirmSubmit firms2 c name
      = ({ c with firmInputError := [], emailError := emailRequiredAddMsg }, []) := by
    rw [handleFirmSubmit_def, if_pos h]
  exact ⟨e1, by rw [e1], e1.trans e2.symm⟩

/-- Witness for C4 at the initial state, whose email is empty. -/
theorem handleFirmSubmit_emailRequired_witness :
    handleFirmSubmit [] initController (strOf "Allen & Overy")
        = ({ initController with firmInputError := [], emailError := emailRequiredAddMsg }, [])
    ∧ (handleFirmSubmit [] initController (strOf "Allen & Overy")).1.formState
        = initController.formState
    ∧ handleFirmSubmit [] initController (strOf "Allen & Overy")
        = handleFirmSubmit [strOf "Allen & Overy"] initController (strOf "Allen & Overy") :=
  handleFirmSubmit_emailRequired [] [strOf "Allen & Overy"] initController
    (strOf "Allen & Overy") rfl

/-- C5: with a valid email, submitting a firm name that case-insensitively
equals the firmName of an already-entered entry yields the duplicate error
and leaves the form state unchanged, emitting no effect. -/
theorem handleFirmSubmit_duplicate (firms : List Str) (c : Controller) (name : Str)
    (hemail : c.formState.userEmail ≠ [])
    (hvalid : validateEmail c.formState.userEmail = true)
    (hdup : ∃ e ∈ c.formState.enteredFirms, toLower e.firmName = toLower name) :
    handleFirmSubmit firms c name = ({ c with firmInputError := duplicateFirmMsg }, [])
    ∧ (handleFirmSubmit firms c name).1.formState = c.formState := by
  have hany : (c.formState.enteredFirms.any (fun entry =>
      toLower entry.firmName = toLower name)) = true := by
    simp only [List.any_eq_true, decide_eq_true_eq]
    exact hdup
  have e1 : handleFirmSubmit firms c name
      = ({ c with firmInputError := duplicateFirmMsg }, []) := by
    rw [handleFirmSubmit_def, if_neg hemail, if_neg (by simp [hvalid]), if_pos hany]
  exact ⟨e1, by rw [e1]⟩

/-- Witness for C5: a state with a valid email and one entry, resubmitting
the same firm in different case. -/
theorem handleFirmSubmit_duplicate_witness :
    handleFirmSubmit [strOf "Allen & Overy"] dupController (strOf "ALLEN & OVERY")
        = ({ dupController with firmInputError := duplicateFirmMsg }, [])
    ∧ (handleFirmSubmit [strOf "Allen & Overy"] dupController
        (strOf "ALLEN & OVERY")).1.formState = dupController.formState :=
  handleFirmSubmit_duplicate _ _ _ (by decide) (by decide) ⟨aoEntry, by decide, by decide⟩

/-- C6: with a valid email, a non-duplicate name that does not match the
directory is appended as exactly one unmatched FirmEntry carrying the
submitted name and no contact fields; the step stays firm-input, the
in-flight firm name and the input are cleared, and exactly one toast
effect is emitted. -/
theorem handleFirmSubmit_unmatched (firms : List Str) (c : Controller) (name : Str)
    (hemail : c.formState.userEmail ≠ [])
    (hvalid : validateEmail c.formState.userEmail = true)
    (hdup : ∀ e ∈ c.formState.enteredFirms, toLower e.firmName ≠ toLower name)
    (hunmatched : FirmService.isValidFirm firms name = false)
    (hstep : c.formState.currentStep = .firmInput)
    (htrimmed : trim name = name) :
    handleFirmSubmit firms c name =
      ({ c with
          formState := { c.formState with
            enteredFirms := c.formState.enteredFirms ++
              [{ id := c.nextId, firmName := name, isMatched := false, timestamp := c.now }]
            currentFirmName := []
            currentFirmMatched := false
            currentStep := .firmInput }
          firmInputError := []
          currentFirmInput := []
          nextId := c.nextId + 1
          toastMessage := toastMsgFor name
          showToast := true },
        [Effect.toast (toastMsgFor name)])
    ∧ (handleFirmSubmit firms c name).1.formState.currentStep = c.formState.currentStep := by
  have hnone : FirmService.getExactFirmName firms name = none := by
    cases hx : FirmService.getExactFirmName firms name with
    | none => rfl
    | some t =>
      have := getExactFirmName_isSome_iff firms name
      rw [hx, hunmatched] at this
      simp at this
  have hany : ¬((c.formState.enteredFirms.any (fun entry =>
      toLower entry.firmName = toLower name)) = true) := by
    simp only [List.any_eq_true, decide_eq_true_eq]
    push_neg
    exact hdup
  constructor
  · rw [handleFirmSubmit_def, if_neg hemail, if_neg (by simp [hvalid]), if_neg hany,
      if_neg (by simp [hunmatched]), hnone]
    rfl
  · rw [handleFirmSubmit_def, if_neg hemail, if_neg (by simp [hvalid]), if_neg hany,
      if_neg (by simp [hunmatched])]
    exact hstep.symm

/-- Witness for C6: submitting an unknown firm with a valid email and an
empty accumulated list. -/
theorem handleFirmSubmit_unmatched_witness :
    handleFirmSubmit [strOf "Allen & Overy"] emailController (strOf "Zzz Law")
      = ({ emailController with
          formState := { emailController.formState with
            enteredFirms := emailController.formState.enteredFirms ++
              [{ id := emailController.nextId, firmName := strOf "Zzz Law",
                 isMatched := false, timestamp := emailController.now }]
            currentFirmName := []
            currentFirmMatched := false
            currentStep := .firmInput }
          firmInputError := []
          currentFirmInput := []
          nextId := emailController.nextId + 1
          toastMessage := toastMsgFor (strOf "Zzz Law")
          showToast := true },
        [Effect.toast (toastMsgFor (strOf "Zzz Law"))])
    ∧ (handleFirmSubmit [strOf "Allen & Overy"] emailController
        (strOf "Zzz Law")).1.formState.currentStep
      = emailController.formState.currentStep :=
  handleFirmSubmit_unmatched _ _ _ (by decide) (by decide) (by decide) (by decide)
    (by decide) (by decide)

/-- C8: with a present, well-formed email, finishing hands the
accumulated list and the email to the relay and to the onComplete
callback and sets the completion flag, identically whether the relay
call succeeds or fails; the accumulated list and the email error field
are untouched, so no relay failure is surfaced. -/
theorem handleFinish_spec (c : Controller) (relayOk : Bool)
    (hemail : c.formState.userEmail ≠ [])
    (hvalid : validateEmail c.formState.userEmail = true) :
    handleFinish c relayOk =
      ({ c with formState := { c.formState with isFormComplete := true } },
        [Effect.relayPost c.formState.enteredFirms c.formState.userEmail,
         Effect.onComplete c.formState.enteredFirms c.formState.userEmail])
    ∧ (handleFinish c relayOk).1.formState.enteredFirms = c.formState.enteredFirms
    ∧ (handleFinish c relayOk).1.emailError = c.emailError := by
  have e1 : handleFinish c relayOk =
      ({ c with formState := { c.formState with isFormComplete := true } },
        [Effect.relayPost c.formState.enteredFirms c.formState.userEmail,
         Effect.onComplete c.formState.enteredFirms c.formState.userEmail]) := by
    unfold handleFinish
    rw [if_neg hemail, if_neg (by simp [hvalid])]
    cases relayOk <;> rfl
  exact ⟨e1, by rw [e1], by rw [e1]⟩

/-- Witness for C8 with a failing relay call. -/
theorem handleFinish_spec_witness :
    handleFinish dupController false =
      ({ dupController with
          formState := { dupController.formState with isFormComplete := true } },
        [Effect.relayPost dupController.formState.enteredFirms
            dupController.formState.userEmail,
         Effect.onComplete dupController.formState.enteredFirms
            dupController.formState.userEmail])
    ∧ (handleFinish dupController false).1.formState.enteredFirms
        = dupController.formState.enteredFirms
    ∧ (handleFinish dupController false).1.emailError = dupController.emailError :=
  handleFinish_spec dupController false (by decide) (by decide)

/-- C9: removing by an id that occurs in the accumulated list (whose ids
are pairwise distinct, as they are for every reachable state) removes
exactly the entry bearing that id, preserves every other entry and their
order, and changes nothing else. -/
theorem handleRemoveFirm_spec (c : Controller) (firmId : Nat)
    (hmem : firmId ∈ c.formState.enteredFirms.map FirmEntry.id)
    (hnodup : (c.formState.enteredFirms.map FirmEntry.id).Nodup) :
    ∃ l₁ e l₂,
      c.formState.enteredFirms = l₁ ++ e :: l₂ ∧ e.id = firmId
      ∧ firmId ∉ (l₁ ++ l₂).map FirmEntry.id
      ∧ handleRemoveFirm c firmId
          = { c with formState := { c.formState with enteredFirms := l₁ ++ l₂ } } := by
  obtain ⟨e, he, heid⟩ := List.mem_map.mp hmem
  obtain ⟨l₁, l₂, hsplit⟩ := List.append_of_mem he
  have hnodup' := hnodup
  rw [hsplit, List.map_append, List.map_cons] at hnodup'
  have hmid := List.nodup_middle.mp hnodup'
  have hnotin := (List.nodup_cons.mp hmid).1
  have hnotin1 : e.id ∉ l₁.map FirmEntry.id := fun hx =>
    hnotin (List.mem_append.mpr (Or.inl hx))
  have hnotin2 : e.id ∉ l₂.map FirmEntry.id := fun hx =>
    hnotin (List.mem_append.mpr (Or.inr hx))
  have hfil : c.formState.enteredFirms.filter (fun f => f.id ≠ firmId) = l₁ ++ l₂ := by
    have hf1 : l₁.filter (fun f => f.id ≠ firmId) = l₁ :=
      List.filter_eq_self.mpr (fun a ha => by
        simp only [decide_eq_true_eq]
        intro hcontra
        exact hnotin1 (List.mem_map.mpr ⟨a, ha, by rw [hcontra, heid]⟩))
    have hf2 : l₂.filter (fun f => f.id ≠ firmId) = l₂ :=
      List.filter_eq_self.mpr (fun a ha => by
        simp only [decide_eq_true_eq]
        intro hcontra
        exact hnotin2 (List.mem_map.mpr ⟨a, ha, by rw [hcontra, heid]⟩))
    rw [hsplit, List.filter_append, List.filter_cons]
    have hpe : (decide (e.id ≠ firmId)) = false := by simp [heid]
    rw [hpe]
    simp only [Bool.false_eq_true, if_false]
    rw [hf1, hf2]
  refine ⟨l₁, e, l₂, hsplit, heid, ?_, ?_⟩
  · rw [List.map_append]
    intro hx
    rw [← heid] at hx
    exact hnotin hx
  · unfold handleRemoveFirm
    rw [hfil]

/-- Witness for C9: removing the first of two accumulated entries. -/
theorem handleRemoveFirm_spec_witness :
    ∃ l₁ e l₂,
      twoFirmsController.formState.enteredFirms = l₁ ++ e :: l₂ ∧ e.id = 0
      ∧ 0 ∉ (l₁ ++ l₂).map FirmEntry.id
      ∧ handleRemoveFirm twoFirmsController 0
          = { twoFirmsController with
              formState := { twoFirmsController.formState with
                enteredFirms := l₁ ++ l₂ } } :=
  handleRemoveFirm_spec twoFirmsController 0 (by decide) (by decide)

/-- C1 (divergence): an OPTIONS request hits the not-POST branch first,
so the handler answers 405 Method Not Allowed instead of the 200
preflight response of the unreachable OPTIONS branch; the universally
quantified part — every response carries the allow-origin star header —
does hold. -/
theorem handler_options_bug :
    (handler none true { httpMethod := "OPTIONS", body := none }).statusCode = 405
    ∧ (handler none true { httpMethod := "OPTIONS", body := none }).body
        = RelayBody.errorMethodNotAllowed
    ∧ ∀ (webhookUrl : Option String) (relayOk : Bool) (event : RelayEvent),
        ("Access-Control-Allow-Origin", "*") ∈ (handler webhookUrl relayOk event).headers := by
  refine ⟨rfl, rfl, fun url ok event => ?_⟩
  unfold handler
  repeat' split
  all_goals simp

/-! Preservation lemmas feeding the reachable-state invariants. -/

lemma handleFirmSubmit_enteredFirms (firms : List Str) (c : Controller) (name : Str) :
    ((handleFirmSubmit firms c name).1.formState.enteredFirms = c.formState.enteredFirms
      ∧ (handleFirmSubmit firms c name).1.nextId = c.nextId)
    ∨ (∃ nm,
        (handleFirmSubmit firms c name).1.formState.enteredFirms
          = c.formState.enteredFirms ++
            [{ id := c.nextId, firmName := nm, isMatched := false, timestamp := c.now }]
        ∧ (handleFirmSubmit firms c name).1.nextId = c.nextId + 1) := by
  rw [handleFirmSubmit_def]
  split
  · exact Or.inl ⟨rfl, rfl⟩
  · split
    · exact Or.inl ⟨rfl, rfl⟩
    · split
      · exact Or.inl ⟨rfl, rfl⟩
      · split
        · exact Or.inl ⟨rfl, rfl⟩
        · exact Or.inr ⟨_, rfl, rfl⟩

lemma handleContactSubmit_enteredFirms (c : Controller) (d : ContactFormData) :
    (handleContactSubmit c d).1.formState.enteredFirms
      = c.formState.enteredFirms ++
        [{ id := c.nextId
           firmName := c.formState.currentFirmName
           isMatched := true
           contactName := some d.name
           contactDesignation := some d.designation
           relationshipStrength := some d.relationshipStrength
           contactFrequency := some d.contactFrequency
           timestamp := c.now }]
    ∧ (handleContactSubmit c d).1.nextId = c.nextId + 1 := ⟨rfl, rfl⟩

lemma handleFinish_preserved (c : Controller) (relayOk : Bool) :
    (handleFinish c relayOk).1.formState.enteredFirms = c.formState.enteredFirms
    ∧ (handleFinish c relayOk).1.nextId = c.nextId := by
  unfold handleFinish
  split
  · exact ⟨rfl, rfl⟩
  · split
    · exact ⟨rfl, rfl⟩
    · split
      · exact ⟨rfl, rfl⟩
      · exact ⟨rfl, rfl⟩

lemma handleEmailChange_preserved (c : Controller) (email : Str) :
    (handleEmailChange c email).formState.enteredFirms = c.formState.enteredFirms
    ∧ (handleEmailChange c email).nextId = c.nextId := by
  unfold handleEmailChange
  by_cases h : c.emailError ≠ [] <;> simp [h]

lemma handleFirmInputChange_preserved (c : Controller) (value : Str) :
    (handleFirmInputChange c value).formState.enteredFirms = c.formState.enteredFirms
    ∧ (handleFirmInputChange c value).nextId = c.nextId := by
  unfold handleFirmInputChange
  by_cases h : c.firmInputError ≠ [] <;> simp [h]

lemma handleEmailBlur_preserved (c : Controller) :
    (handleEmailBlur c).formState.enteredFirms = c.formState.enteredFirms
    ∧ (handleEmailBlur c).nextId = c.nextId := by
  unfold handleEmailBlur
  by_cases h : c.formState.userEmail ≠ [] ∧ validateEmail c.formState.userEmail = false <;>
    simp [h]

lemma validateForm_fields {d : ContactFormData} (h : validateForm d = true) :
    d.name ≠ [] ∧ d.designation ≠ [] ∧
      d.relationshipStrength ≠ [] ∧ d.contactFrequency ≠ [] := by
  simp only [validateForm, Bool.and_eq_true, Bool.not_eq_true', decide_eq_false_iff_not,
    not_or] at h
  obtain ⟨⟨⟨hrs, hcf⟩, hn, -⟩, hd, -⟩ := h
  exact ⟨hn, hd, hrs, hcf⟩

/-- C7: in every state the controller reaches from its initial state,
every accumulated unmatched entry carries no contact fields, and every
matched entry was created with all four contact fields present and
non-empty. -/
theorem reachable_entries_contactsOk (firms : List Str) (c : Controller)
    (h : Reachable firms c) :
    ∀ e ∈ c.formState.enteredFirms, entryContactsOk e := by
  induction h with
  | init =>
    intro e he
    simp [initController, initialFormState] at he
  | @firmSubmit c0 name hr hc hs ih =>
    intro e he
    rcases handleFirmSubmit_enteredFirms firms c0 name with ⟨heq, -⟩ | ⟨nm, heq, -⟩
    · rw [heq] at he
      exact ih e he
    · rw [heq] at he
      rcases List.mem_append.mp he with hmem | hmem
      · exact ih e hmem
      · rw [List.mem_singleton] at hmem
        subst hmem
        exact ⟨fun _ => ⟨rfl, rfl, rfl, rfl⟩, fun habs => absurd habs (by simp)⟩
  | @contactSubmit c0 d hr hc hs hv ih =>
    intro e he
    rw [(handleContactSubmit_enteredFirms c0 d).1] at he
    rcases List.mem_append.mp he with hmem | hmem
    · exact ih e hmem
    · rw [List.mem_singleton] at hmem
      subst hmem
      obtain ⟨hn, hd2, hrs, hcf⟩ := validateForm_fields hv
      refine ⟨fun habs => absurd habs (by simp), fun _ => ?_⟩
      exact ⟨⟨d.name, rfl, hn⟩, ⟨d.designation, rfl, hd2⟩,
        ⟨d.relationshipStrength, rfl, hrs⟩, ⟨d.contactFrequency, rfl, hcf⟩⟩
  | @contactCancel c0 hr hc hs ih => exact ih
  | @finish c0 ok hr hc hs ih =>
    intro e he
    rw [(handleFinish_preserved c0 ok).1] at he
    exact ih e he
  | @removeFirm c0 i hr hc hs ih =>
    intro e he
    exact ih e (List.mem_of_mem_filter he)
  | @newSubmission c0 hr hc ih =>
    intro e he
    simp [handleNewSubmission, initialFormState] at he
  | @emailChange c0 em hr hc hs ih =>
    intro e he
    rw [(handleEmailChange_preserved c0 em).1] at he
    exact ih e he
  | @firmInputChange c0 v hr hc hs ih =>
    intro e he
    rw [(handleFirmInputChange_preserved c0 v).1] at he
    exact ih e he
  | @emailBlur c0 hr hc hs ih =>
    intro e he
    rw [(handleEmailBlur_preserved c0).1] at he
    exact ih e he

/-- Ids in the accumulated list are fresh and pairwise distinct in every
reachable state: the hypothesis under which remove-by-id removes exactly
one entry is an invariant of the controller. -/
lemma reachable_ids_nodup (firms : List Str) (c : Controller) (h : Reachable firms c) :
    (∀ e ∈ c.formState.enteredFirms, e.id < c.nextId)
    ∧ (c.formState.enteredFirms.map FirmEntry.id).Nodup := by
  induction h with
  | init =>
    refine ⟨fun e he => ?_, ?_⟩
    · simp [initController, initialFormState] at he
    · simp [initController, initialFormState]
  | @firmSubmit c0 name hr hc hs ih =>
    rcases handleFirmSubmit_enteredFirms firms c0 name with ⟨heq, hn⟩ | ⟨nm, heq, hn⟩
    · rw [heq, hn]
      exact ih
    · rw [heq, hn]
      refine ⟨fun e he => ?_, ?_⟩
      · rcases List.mem_append.mp he with hmem | hmem
        · exact Nat.lt_succ_of_lt (ih.1 e hmem)
        · rw [List.mem_singleton] at hmem
          subst hmem
          exact Nat.lt_succ_self _
      · rw [List.map_append]
        refine List.Nodup.append ih.2 (by simp) ?_
        intro a ha hb
        simp only [List.map_cons, List.map_nil, List.mem_singleton] at hb
        subst hb
        obtain ⟨e, hmem, heid⟩ := List.mem_map.mp ha
        have := ih.1 e hmem
        omega
  | @contactSubmit c0 d hr hc hs hv ih =>
    rw [(handleContactSubmit_enteredFirms c0 d).1, (handleContactSubmit_enteredFirms c0 d).2]
    refine ⟨fun e he => ?_, ?_⟩
    · rcases List.mem_append.mp he with hmem | hmem
      · exact Nat.lt_succ_of_lt (ih.1 e hmem)
      · rw [List.mem_singleton] at hmem
        subst hmem
        exact Nat.lt_succ_self _
    · rw [List.map_append]
      refine List.Nodup.append ih.2 (by simp) ?_
      intro a ha hb
      simp only [List.map_cons, List.map_nil, List.mem_singleton] at hb
      subst hb
      obtain ⟨e, hmem, heid⟩ := List.mem_map.mp ha
      have := ih.1 e hmem
      omega
  | @contactCancel c0 hr hc hs ih => exact ih
  | @finish c0 ok hr hc hs ih =>
    rw [(handleFinish_preserved c0 ok).1, (handleFinish_preserved c0 ok).2]
    exact ih
  | @removeFirm c0 i hr hc hs ih =>
    refine ⟨fun e he => ih.1 e (List.mem_of_mem_filter he), ?_⟩
    have hsub : ((handleRemoveFirm c0 i).formState.enteredFirms).Sublist
        c0.formState.enteredFirms := List.filter_sublist _
    exact List.Nodup.sublist (hsub.map FirmEntry.id) ih.2
  | @newSubmission c0 hr hc ih =>
    refine ⟨fun e he => ?_, ?_⟩
    · simp [handleNewSubmission, initialFormState] at he
    · simp [handleNewSubmission, initialFormState]
  | @emailChange c0 em hr hc hs ih =>
    rw [(handleEmailChange_preserved c0 em).1, (handleEmailChange_preserved c0 em).2]
    exact ih
  | @firmInputChange c0 v hr hc hs ih =>
    rw [(handleFirmInputChange_preserved c0 v).1, (handleFirmInputChange_preserved c0 v).2]
    exact ih
  | @emailBlur c0 hr hc hs ih =>
    rw [(handleEmailBlur_preserved c0).1, (handleEmailBlur_preserved c0).2]
    exact ih

/-- Witness for C7: after recording an email, submitting an unmatched
firm, submitting a matched firm and completing its contact sub-form, the
matched entry the controller created satisfies the contact-field
invariant. -/
theorem reachable_entries_contactsOk_witness :
    entryContactsOk
      { id := 1, firmName := strOf "Allen & Overy", isMatched := true,
        contactName := some (strOf "Jane Doe"),
        contactDesignation := some (strOf "Partner"),
        relationshipStrength := some (strOf "strong"),
        contactFrequency := some (strOf "quarterly"), timestamp := 0 } :=
  reachable_entries_contactsOk [strOf "Allen & Overy"]
    ((handleContactSubmit
        ((handleFirmSubmit [strOf "Allen & Overy"]
            ((handleFirmSubmit [strOf "Allen & Overy"]
                (handleEmailChange initController (strOf "a@b.com"))
                (strOf "Zzz Law")).1)
            (strOf "allen & overy")).1)
        { name := strOf "Jane Doe", designation := strOf "Partner",
          relationshipStrength := strOf "strong",
          contactFrequency := strOf "quarterly" }).1)
    (Reachable.contactSubmit
      (Reachable.firmSubmit
        (Reachable.firmSubmit
          (Reachable.emailChange Reachable.init (by decide) (by decide))
          (by decide) (by decide))
        (by decide) (by decide))
      (by decide) (by decide) (by decide))
    _ (by decide)

